import Mathlib

/-!
# markparsr: file and URL validators

A shallow embedding of `files.go` and `urls.go` of the `markparsr` package,
followed by theorems about `FileValidator.Validate`, `validateFile`,
`NewFileValidator`, `URLValidator.Validate` and `validateSingleURL`.

Conventions of the embedding.

* Go strings are Lean `String`s; the path functions of `path/filepath`
  (Unix flavour, separator `/`) work on the list of characters.
* A Go `error` is a `GoError`; a nil error is `none`.
* A slice is a `List`; the nil slice is `[]`, and `append` adds at the end.
* The filesystem is a function giving the outcome of `os.Stat` per path.
* The network is a function giving the outcome of `http.Get` per URL; every
  request issued is recorded in a log.
* Goroutines are tasks run in an order chosen by an arbitrary schedule.
-/

namespace Markparsr

/-! ## Errors -/

/-- Go error values. `external` is an error made outside this package (by the
operating system or the HTTP client), with its message and the answer
`os.IsNotExist` gives for it; `errorf` is made by `fmt.Errorf` without `%w`;
`wrapf` is made by `fmt.Errorf` with one `%w` verb and wraps `inner`. -/
inductive GoError where
  | external (text : String) (notExist : Bool)
  | errorf (text : String)
  | wrapf (text : String) (inner : GoError)
deriving DecidableEq, Repr

/-- The method `Error()` of an error: its message. -/
def GoError.Error : GoError → String
  | .external text _ => text
  | .errorf text => text
  | .wrapf text _ => text

/-- The function `errors.Unwrap`: the error wrapped with `%w`, if any. -/
def GoError.Unwrap : GoError → Option GoError
  | .wrapf _ inner => some inner
  | _ => none

/-- The function `os.IsNotExist`. It predates `errors.Is` and does not look through
errors wrapped by `fmt.Errorf`. -/
def osIsNotExist : GoError → Bool
  | .external _ notExist => notExist
  | _ => false

/-! ## path/filepath (Unix) -/

/-- The function `os.IsPathSeparator` on Unix. -/
def isPathSeparator (c : Char) : Bool := c == '/'

/-- The function `filepath.IsAbs` on Unix: `strings.HasPrefix(path, "/")`. -/
def filepathIsAbs (path : String) : Bool :=
  match path.data with
  | c :: _ => c == '/'
  | [] => false

/-- Inner loop of the `..` case of `filepath.Clean`: starting from write index `w`,
step back while `w > dotdot` and the buffer byte at `w` is not a separator. -/
def cleanBacktrack (buf : List Char) (dotdot : Nat) : Nat → Nat
  | 0 => 0
  | w + 1 =>
    if w + 1 > dotdot && !isPathSeparator (buf.getD (w + 1) '/') then
      cleanBacktrack buf dotdot w
    else w + 1

/-- Main loop of `filepath.Clean`. `path` is the part of the input still to read
(from index `r` on), `out` the bytes written so far (`out.w` is its length),
`dotdot` the index where `..` must stop. Each round reads at least one byte,
so a fuel of the length of the input is enough. -/
def cleanLoop (rooted : Bool) : Nat → List Char → List Char → Nat → List Char
  | 0, _, out, _ => out
  | _ + 1, [], out, _ => out
  | fuel + 1, c :: rest, out, dotdot =>
    if isPathSeparator c then
      -- empty path element
      cleanLoop rooted fuel rest out dotdot
    else if c == '.' && (rest.isEmpty || isPathSeparator (rest.headD '/')) then
      -- . element
      cleanLoop rooted fuel rest out dotdot
    else if c == '.' && rest.headD '/' == '.' &&
        (rest.tail.isEmpty || isPathSeparator (rest.tail.headD '/')) then
      -- .. element: remove to last separator
      if out.length > dotdot then
        -- can backtrack
        let w := cleanBacktrack out dotdot (out.length - 1)
        cleanLoop rooted fuel rest.tail (out.take w) dotdot
      else if !rooted then
        -- cannot backtrack, but not rooted, so append .. element
        let out1 := if out.length > 0 then out ++ ['/'] else out
        let out2 := out1 ++ ['.', '.']
        cleanLoop rooted fuel rest.tail out2 out2.length
      else
        cleanLoop rooted fuel rest.tail out dotdot
    else
      -- real path element: add slash if needed, then copy the element
      let out1 :=
        if (rooted && out.length != 1) || (!rooted && out.length != 0) then out ++ ['/']
        else out
      let elem := (c :: rest).takeWhile (fun x => !isPathSeparator x)
      cleanLoop rooted fuel ((c :: rest).dropWhile (fun x => !isPathSeparator x))
        (out1 ++ elem) dotdot

/-- The function `filepath.Clean` on Unix (no volume name). -/
def filepathClean (path : String) : String :=
  match path.data with
  | [] => "."
  | c :: rest =>
    let rooted := isPathSeparator c
    let out :=
      if rooted then cleanLoop rooted rest.length rest ['/'] 1
      else cleanLoop rooted (rest.length + 1) (c :: rest) [] 0
    -- turn empty string into "."
    if out.isEmpty then "." else String.mk out

/-- The function `strings.Join(elems, "/")`. -/
def joinWithSeparator : List String → String
  | [] => ""
  | [e] => e
  | e :: es => e ++ "/" ++ joinWithSeparator es

/-- The function `filepath.Join` on Unix: drop the leading empty elements, join the rest
with `/` and clean the result; no non-empty element gives the empty string. -/
def filepathJoin : List String → String
  | [] => ""
  | e :: es => if e != "" then filepathClean (joinWithSeparator (e :: es)) else filepathJoin es

/-- Trailing separators removed, as in the first loop of `filepath.Base`; works on the
reversed path. -/
def stripLeadingSeparators : List Char → List Char
  | [] => []
  | c :: cs => if isPathSeparator c then stripLeadingSeparators cs else c :: cs

/-- The function `filepath.Base` on Unix: the last element of the path, after removing
trailing slashes; `.` for the empty path, `/` for a path of slashes only. -/
def filepathBase (path : String) : String :=
  if path == "" then "."
  else
    let rev := stripLeadingSeparators path.data.reverse
    let last := (rev.takeWhile (fun x => !isPathSeparator x)).reverse
    if last.isEmpty then "/" else String.mk last

/-! ## files.go -/

/-- The part of `os.FileInfo` that the validator reads. -/
structure FileInfo where
  Size : Int
deriving DecidableEq, Repr

/-- A filesystem state: what `os.Stat` returns for each path. -/
structure FileSystem where
  Stat : String → Except GoError FileInfo

/-- Checks that a file exists and is not empty. -/
def validateFile (fs : FileSystem) (filePath : String) : Option GoError :=
  match fs.Stat filePath with
  | .error err =>
    if osIsNotExist err then
      some (.errorf ("file does not exist: " ++ filepathBase filePath))
    else
      some (.wrapf ("error accessing file: " ++ filepathBase filePath ++ ": " ++ err.Error) err)
  | .ok fileInfo =>
    if fileInfo.Size == 0 then
      some (.errorf ("file is empty: " ++ filepathBase filePath))
    else none

/-- The validator of the files of a Terraform module. -/
structure FileValidator where
  rootDir : String
  requiredFiles : List String
  additionalFiles : List String
deriving DecidableEq, Repr

/-- One round of the loop of `NewFileValidator` over the additional files. -/
def absAdditionalStep (modulePath : String) (absAdditionalFiles : List String)
    (file : String) : List String :=
  if !filepathIsAbs file then
    absAdditionalFiles ++ [filepathJoin [modulePath, file]]
  else
    absAdditionalFiles ++ [file]

/-- Creates a validator for the README, the three standard files of the module and the
additional files. -/
def NewFileValidator (readmePath modulePath : String) (additionalFiles : List String) :
    FileValidator :=
  let requiredFiles := [
    readmePath,
    filepathJoin [modulePath, "outputs.tf"],
    filepathJoin [modulePath, "variables.tf"],
    filepathJoin [modulePath, "terraform.tf"]]
  let absAdditionalFiles := additionalFiles.foldl (absAdditionalStep modulePath) []
  FileValidator.mk modulePath requiredFiles absAdditionalFiles

/-- One round of either loop of `Validate`: the file is checked and a failure is appended
with its classification in front (`fmt.Errorf` with `%v`, which does not wrap). -/
def validateStep (fs : FileSystem) (kind : String) (allErrors : List GoError)
    (filePath : String) : List GoError :=
  match validateFile fs filePath with
  | some err => allErrors ++ [.errorf (kind ++ err.Error)]
  | none => allErrors

/-- Checks that all required and additional files exist and are not empty. -/
def FileValidator.Validate (fs : FileSystem) (fv : FileValidator) : List GoError :=
  let allErrors : List GoError := []
  let allErrors := fv.requiredFiles.foldl (validateStep fs "required ") allErrors
  let allErrors := fv.additionalFiles.foldl (validateStep fs "additional ") allErrors
  allErrors

/-! ## urls.go -/

/-- Modelled from the spec: the type `MarkdownContent` is declared in a file of the
package that is not part of this development; the URL validator only needs it to
expose a single scannable text, its field `data`. -/
structure MarkdownContent where
  data : String
deriving DecidableEq, Repr

/-- The URL validator: it holds the content to scan. -/
structure URLValidator where
  content : MarkdownContent
deriving DecidableEq, Repr

/-- Creates a URL validator for the content. -/
def NewURLValidator (content : MarkdownContent) : URLValidator :=
  URLValidator.mk content

/-- The part of `http.Response` that the validator reads. -/
structure Response where
  StatusCode : Int
deriving DecidableEq, Repr

/-- A state of the network: the outcome of `http.Get` for each URL. Every request is
assumed to end, with a response or with an error. -/
structure Network where
  Get : String → Except GoError Response

/-- The function `strings.Contains` on the characters of the strings. -/
def containsChars (substr : List Char) : List Char → Bool
  | [] => substr.isEmpty
  | c :: cs => substr.isPrefixOf (c :: cs) || containsChars substr cs

/-- The function `strings.Contains`. -/
def stringsContains (s substr : String) : Bool :=
  containsChars substr.data s.data

/-- The call `http.Get(url)`: the request is added to the log of requests issued and the
network gives its outcome. -/
def httpGet (net : Network) (url : String) (log : List String) :
    Except GoError Response × List String :=
  (net.Get url, log ++ [url])

/-- Probes one URL: an error when the request fails or the status is not 200. -/
def validateSingleURL (net : Network) (url : String) (log : List String) :
    Option GoError × List String :=
  match httpGet net url log with
  | (.error err, log) =>
    (some (.wrapf ("error accessing URL: " ++ url ++ ": " ++ err.Error) err), log)
  | (.ok resp, log) =>
    if resp.StatusCode != 200 then
      (some (.errorf ("URL returned non-OK status: " ++ url ++ ": Status: " ++
        toString resp.StatusCode)), log)
    else (none, log)

/-- A live goroutine of `Validate`: `spawned url` has not yet called `validateSingleURL`;
`returned err` has got its result and still has to send it (when it is an error) and to
run the deferred `wg.Done()`. -/
inductive Goroutine where
  | spawned (url : String)
  | returned (err : Option GoError)
deriving DecidableEq, Repr

/-- The state of one run of `Validate`: the live goroutines, the counter of the wait
group, the capacity and the content of the channel of errors, and the log of the
requests issued so far. -/
structure Run where
  goroutines : List Goroutine
  wg : Nat
  chanCap : Nat
  errChan : List GoError
  log : List String
deriving DecidableEq, Repr

/-- One round of the loop that starts the goroutines: an exempt URL is skipped, any other
one adds one to the wait group and starts a goroutine. -/
def spawnStep (r : Run) (u : String) : Run :=
  if stringsContains u "registry.terraform.io/providers/" then r
  else Run.mk (r.goroutines ++ [.spawned u]) (r.wg + 1) r.chanCap r.errChan r.log

/-- One step of the goroutine chosen by `pick` among the live ones. A spawned goroutine
calls `validateSingleURL`. A goroutine that has its result sends the error, if any, on
the channel, which blocks (no step) while the channel is full, and then ends with
`wg.Done()`. -/
def Run.step (net : Network) (pick : Nat) (r : Run) : Run :=
  let i := pick % r.goroutines.length
  match r.goroutines[i]? with
  | none => r
  | some (.spawned url) =>
    let res := validateSingleURL net url r.log
    Run.mk (r.goroutines.set i (.returned res.1)) r.wg r.chanCap r.errChan res.2
  | some (.returned none) =>
    Run.mk (r.goroutines.eraseIdx i) (r.wg - 1) r.chanCap r.errChan r.log
  | some (.returned (some err)) =>
    if r.errChan.length < r.chanCap then
      Run.mk (r.goroutines.eraseIdx i) (r.wg - 1) r.chanCap (r.errChan ++ [err]) r.log
    else r

/-- The call `wg.Wait()`: goroutines run, in the order given by the schedule (0 once it is
used up), until the counter of the wait group is zero. `none` when the fuel runs out
before that. -/
def Run.wait (net : Network) : Nat → List Nat → Run → Option Run
  | 0, _, r => if r.wg == 0 then some r else none
  | fuel + 1, sched, r =>
    if r.wg == 0 then some r
    else Run.wait net fuel sched.tail (r.step net (sched.headD 0))

/-- The body of `Validate` up to `close(errChan)`: `rxStrict` stands for
`xurls.Strict().FindAllString(text, -1)`, which returns every match found in the text,
one per occurrence, in order. Every goroutine takes two steps, so twice their number is
fuel enough for the wait. -/
def URLValidator.run (rxStrict : String → List String) (net : Network) (sched : List Nat)
    (uv : URLValidator) : Option Run :=
  let urls := rxStrict uv.content.data
  let r := urls.foldl spawnStep (Run.mk [] 0 urls.length [] [])
  Run.wait net (2 * r.goroutines.length) sched r

/-- The loop that drains the closed channel into the result. -/
def drain (errChan : List GoError) : List GoError :=
  errChan.foldl (fun errors err => errors ++ [err]) []

/-- Probes the URLs of the content and returns the failures; `none` would mean that the
wait never ends. -/
def URLValidator.Validate (rxStrict : String → List String) (net : Network)
    (sched : List Nat) (uv : URLValidator) : Option (List GoError) :=
  (uv.run rxStrict net sched).map (fun r => drain r.errChan)

/-- The requests issued by `Validate`, in the order of issue. -/
def URLValidator.requests (rxStrict : String → List String) (net : Network)
    (sched : List Nat) (uv : URLValidator) : Option (List String) :=
  (uv.run rxStrict net sched).map (fun r => r.log)

/-- A file that is present but has zero length. -/
def isZeroLength (fs : FileSystem) (filePath : String) : Bool :=
  match fs.Stat filePath with
  | .ok fileInfo => fileInfo.Size == 0
  | .error _ => false

/-- The failure of one checked path with its classification in front, if the path fails. -/
def classified (fs : FileSystem) (kind : String) (filePath : String) : Option GoError :=
  (validateFile fs filePath).map (fun err => GoError.errorf (kind ++ err.Error))

/-! ## Quantities used in the statements -/

/-- The matches that are probed: those without the marker of the provider registry. -/
def nonExempt (urls : List String) : List String :=
  urls.filter (fun u => !stringsContains u "registry.terraform.io/providers/")

/-- A URL for which a response arrives with a status code other than 200. -/
def returnsNon200 (net : Network) (url : String) : Bool :=
  match net.Get url with
  | .ok resp => resp.StatusCode != 200
  | .error _ => false

/-- What `validateSingleURL` returns for a URL: it does not depend on the log. -/
def probeErr (net : Network) (url : String) : Option GoError :=
  (validateSingleURL net url []).1

/-- Steps that a live goroutine still has to take. -/
def Goroutine.weight : Goroutine → Nat
  | .spawned _ => 2
  | .returned _ => 1

/-- The request that a live goroutine still has to issue. -/
def Goroutine.toProbe : Goroutine → Multiset String
  | .spawned url => {url}
  | .returned _ => 0

/-- The error that a live goroutine still has to send. -/
def Goroutine.toSend (net : Network) : Goroutine → Multiset GoError
  | .spawned url => ((probeErr net url).toList : Multiset GoError)
  | .returned err => (err.toList : Multiset GoError)

/-- The requests issued and still to be issued in a run. -/
def Run.probes (r : Run) : Multiset String :=
  (r.log : Multiset String) + (r.goroutines.map Goroutine.toProbe).sum

/-- The errors sent and still to be sent in a run. -/
def Run.failures (net : Network) (r : Run) : Multiset GoError :=
  (r.errChan : Multiset GoError) + (r.goroutines.map (Goroutine.toSend net)).sum

/-- The steps still to be taken in a run. -/
def Run.weight (r : Run) : Nat :=
  (r.goroutines.map Goroutine.weight).sum

/-- The invariant of a run: the wait group counts the live goroutines and the channel has
room for one error of each. -/
def Run.ok (r : Run) : Prop :=
  r.wg = r.goroutines.length ∧ r.errChan.length + r.goroutines.length ≤ r.chanCap

/-! ## Sample inputs -/

/-- A module directory `/mod` whose README and three standard files are present and have
content; no other path exists. -/
def completeModule : FileSystem :=
  FileSystem.mk (fun p =>
    if p ∈ ["/mod/README.md", "/mod/outputs.tf", "/mod/variables.tf", "/mod/terraform.tf"] then
      .ok (FileInfo.mk 120)
    else .error (.external ("stat " ++ p ++ ": no such file or directory") true))

/-- The module directory `/mod` with a `variables.tf` of zero length. -/
def emptyVariablesModule : FileSystem :=
  FileSystem.mk (fun p =>
    if p = "/mod/variables.tf" then .ok (FileInfo.mk 0) else completeModule.Stat p)

/-- The module directory `/mod` with an `outputs.tf` of zero length. -/
def emptyOutputsModule : FileSystem :=
  FileSystem.mk (fun p =>
    if p = "/mod/outputs.tf" then .ok (FileInfo.mk 0) else completeModule.Stat p)

/-- A file of the module used as a directory: the stat of a path below `/mod/README.md`
fails with `ENOTDIR`, which is not a not-exist error. -/
def fileAsDirectory : FileSystem :=
  FileSystem.mk (fun p =>
    if p = "/mod/README.md/x" then
      .error (.external "stat /mod/README.md/x: not a directory" false)
    else completeModule.Stat p)

/-- A sample matcher, which gives the matches of the strict URL matcher on the sample
texts below (plain words and simple links separated by single blanks): the words that
start with `http://` or `https://`, one per occurrence, in order. -/
def wordsWithScheme (text : String) : List String :=
  ((text.data.splitOn ' ').filter (fun w =>
    "http://".data.isPrefixOf w || "https://".data.isPrefixOf w)).map String.mk

/-- A network where every request gets a response: 404 for `https://example.com/x`,
500 for `https://example.org/y`, 200 for every other URL. -/
def sampleNetwork : Network :=
  Network.mk (fun u =>
    if u = "https://example.com/x" then .ok (Response.mk 404)
    else if u = "https://example.org/y" then .ok (Response.mk 500)
    else .ok (Response.mk 200))

/-- A text with one ordinary link and one link to the provider registry. -/
def twoLinks : URLValidator :=
  NewURLValidator (MarkdownContent.mk
    "see https://example.com/x and https://registry.terraform.io/providers/foo/bar")

/-- A text with the same link twice. -/
def repeatedLink : URLValidator :=
  NewURLValidator (MarkdownContent.mk "https://example.com/x https://example.com/x")

/-- A text with three distinct links, two of them broken, and a registry link. -/
def fourLinks : URLValidator :=
  NewURLValidator (MarkdownContent.mk
    ("https://example.com/x https://go.dev/doc https://example.org/y " ++
      "https://registry.terraform.io/providers/foo/bar"))

/-! ## Lemmas on strings and loops -/

theorem string_append_left_cancel (a x y : String) : a ++ x = a ++ y ↔ x = y := by
  constructor
  · intro h
    have h2 := congrArg String.data h
    simp only [String.data_append] at h2
    exact String.ext (List.append_cancel_left h2)
  · intro h
    rw [h]

theorem foldl_absAdditionalStep (modulePath : String) (files acc : List String) :
    files.foldl (absAdditionalStep modulePath) acc =
      acc ++ files.map (fun f => if filepathIsAbs f then f else filepathJoin [modulePath, f]) := by
  induction files generalizing acc with
  | nil => simp
  | cons f fs ih =>
    rw [List.foldl_cons, ih]
    unfold absAdditionalStep
    by_cases h : filepathIsAbs f = true <;> simp [h]

theorem foldl_validateStep (fs : FileSystem) (kind : String) (paths : List String)
    (acc : List GoError) :
    paths.foldl (validateStep fs kind) acc = acc ++ paths.filterMap (classified fs kind) := by
  induction paths generalizing acc with
  | nil => simp
  | cons p ps ih =>
    rw [List.foldl_cons, ih]
    unfold validateStep classified
    cases h : validateFile fs p <;> simp [h, List.filterMap_cons]

theorem length_filterMap_classified (fs : FileSystem) (kind : String) (paths : List String) :
    (paths.filterMap (classified fs kind)).length =
      (paths.filter (fun p => (validateFile fs p).isSome)).length := by
  induction paths with
  | nil => simp
  | cons p ps ih =>
    unfold classified at ih ⊢
    cases h : validateFile fs p <;> simp [h, List.filterMap_cons, List.filter_cons, ih]

theorem Validate_eq (fs : FileSystem) (fv : FileValidator) :
    fv.Validate fs = fv.requiredFiles.filterMap (classified fs "required ") ++
      fv.additionalFiles.filterMap (classified fs "additional ") := by
  unfold FileValidator.Validate
  simp only [foldl_validateStep, List.nil_append]

theorem NewFileValidator_additionalFiles (readmePath modulePath : String)
    (additionalFiles : List String) :
    (NewFileValidator readmePath modulePath additionalFiles).additionalFiles =
      additionalFiles.map
        (fun f => if filepathIsAbs f then f else filepathJoin [modulePath, f]) := by
  unfold NewFileValidator
  simp only [foldl_absAdditionalStep, List.nil_append]

/-! ## Lemmas on path/filepath -/

theorem cleanLoop_fuel (rooted : Bool) (fuel : Nat) :
    ∀ (fuel' : Nat) (path out : List Char) (dotdot : Nat),
      path.length ≤ fuel → path.length ≤ fuel' →
      cleanLoop rooted fuel path out dotdot = cleanLoop rooted fuel' path out dotdot := by
  induction fuel with
  | zero =>
    intro fuel' path out dotdot h _
    have hnil : path = [] := List.length_eq_zero.mp (by omega)
    subst hnil
    cases fuel' <;> simp [cleanLoop]
  | succ n ih =>
    intro fuel' path out dotdot h h'
    cases path with
    | nil => cases fuel' <;> simp [cleanLoop]
    | cons c rest =>
      cases fuel' with
      | zero => simp at h'
      | succ m =>
        have hrest : rest.length ≤ n := by simpa using h
        have hrest' : rest.length ≤ m := by simpa using h'
        have htail : rest.tail.length ≤ rest.length := by simp
        have hdrop : (rest.dropWhile (fun x => !isPathSeparator x)).length ≤ rest.length :=
          (List.dropWhile_sublist _).length_le
        rw [cleanLoop, cleanLoop]
        by_cases hsep : isPathSeparator c = true
        · simp only [hsep, if_true]
          exact ih m rest out dotdot hrest hrest'
        · have hdw : (c :: rest).dropWhile (fun x => !isPathSeparator x) =
              rest.dropWhile (fun x => !isPathSeparator x) := by
            simp [List.dropWhile_cons, hsep]
          simp only [hsep, hdw]
          split_ifs <;> apply ih <;> omega

theorem cleanBacktrack_pos (buf : List Char) (w : Nat) (h : 1 ≤ w) :
    1 ≤ cleanBacktrack buf 1 w := by
  induction w with
  | zero => omega
  | succ n ih =>
    rw [cleanBacktrack]
    split_ifs with hc
    · apply ih
      simp at hc
      omega
    · omega

theorem cleanLoop_rooted_head (fuel : Nat) :
    ∀ (path out : List Char), out.head? = some '/' →
      (cleanLoop true fuel path out 1).head? = some '/' := by
  induction fuel with
  | zero => intro path out h; simpa [cleanLoop] using h
  | succ n ih =>
    intro path out h
    cases path with
    | nil => simpa [cleanLoop] using h
    | cons c rest =>
      obtain ⟨t, rfl⟩ : ∃ t, out = '/' :: t := by
        cases out with
        | nil => simp at h
        | cons a t => simp at h; exact ⟨t, by rw [h]⟩
      rw [cleanLoop]
      simp only [Bool.not_true, Bool.false_and, Bool.or_false, Bool.true_and,
        Bool.false_eq_true, if_false]
      split_ifs with h1 h2 h3 h4 h5
      · exact ih _ _ h
      · exact ih _ _ h
      · apply ih
        have hlen : 1 ≤ ('/' :: t).length - 1 := by
          simp only [List.length_cons] at h4 ⊢
          omega
        have := cleanBacktrack_pos ('/' :: t) (('/' :: t).length - 1) hlen
        generalize cleanBacktrack ('/' :: t) 1 (('/' :: t).length - 1) = w at this
        cases w with
        | zero => omega
        | succ k => simp
      · exact ih _ _ h
      · apply ih
        simp
      · apply ih
        simp

theorem filepathClean_abs (path : String) (h : filepathIsAbs path = true) :
    filepathIsAbs (filepathClean path) = true := by
  unfold filepathIsAbs at h
  unfold filepathClean
  cases hd : path.data with
  | nil => simp [hd] at h
  | cons c rest =>
    simp only [hd, beq_iff_eq] at h
    subst h
    have hsep : isPathSeparator '/' = true := by decide
    simp only [hsep, if_true]
    have hhead := cleanLoop_rooted_head rest.length rest ['/'] rfl
    generalize cleanLoop true rest.length rest ['/'] 1 = out at hhead
    cases out with
    | nil => simp at hhead
    | cons a t =>
      simp only [List.head?_cons, Option.some.injEq] at hhead
      subst hhead
      simp [filepathIsAbs]

theorem filepathJoin_abs (modulePath file : String) (h : filepathIsAbs modulePath = true) :
    filepathIsAbs (filepathJoin [modulePath, file]) = true := by
  have hne : modulePath ≠ "" := by
    intro he
    rw [he] at h
    exact Bool.noConfusion h
  unfold filepathJoin
  simp only [bne_iff_ne, ne_eq, hne, not_false_eq_true, if_true]
  apply filepathClean_abs
  unfold filepathIsAbs at h ⊢
  simp only [joinWithSeparator, String.data_append]
  cases hd : modulePath.data with
  | nil => simp [hd] at h
  | cons c rest =>
    simp only [hd] at h
    simpa using h

theorem NewFileValidator_absolute_root (readmePath modulePath : String)
    (additionalFiles : List String) (h : filepathIsAbs modulePath = true) :
    ∀ p ∈ (NewFileValidator readmePath modulePath additionalFiles).additionalFiles,
      filepathIsAbs p = true := by
  intro p hp
  rw [NewFileValidator_additionalFiles, List.mem_map] at hp
  obtain ⟨f, _, hf⟩ := hp
  by_cases habs : filepathIsAbs f = true
  · simp only [habs, if_true] at hf
    rw [← hf]
    exact habs
  · simp only [habs] at hf
    rw [← hf]
    exact filepathJoin_abs modulePath f h

/-! ## Lemmas on the file validator -/

theorem containsChars_subset (substr s : List Char) (h : containsChars substr s = true) :
    ∀ c ∈ substr, c ∈ s := by
  induction s with
  | nil =>
    intro c hc
    simp only [containsChars, List.isEmpty_iff] at h
    rw [h] at hc
    exact hc
  | cons a as ih =>
    intro c hc
    simp only [containsChars, Bool.or_eq_true, List.isPrefixOf_iff_prefix] at h
    cases h with
    | inl hpre => exact hpre.subset hc
    | inr hrec => exact List.mem_cons_of_mem _ (ih hrec c hc)

theorem stripLeadingSeparators_ne_nil (l : List Char)
    (h : ∃ c ∈ l, isPathSeparator c = false) :
    ∃ c cs, stripLeadingSeparators l = c :: cs ∧ isPathSeparator c = false := by
  induction l with
  | nil => simp at h
  | cons a as ih =>
    by_cases ha : isPathSeparator a = true
    · simp only [stripLeadingSeparators, ha, if_true]
      apply ih
      obtain ⟨c, hc, hsep⟩ := h
      rcases List.mem_cons.mp hc with rfl | hmem
      · rw [ha] at hsep
        exact Bool.noConfusion hsep
      · exact ⟨c, hmem, hsep⟩
    · simp only [stripLeadingSeparators, ha]
      exact ⟨a, as, by simp, by simpa using ha⟩

theorem filepathBase_no_separator (path : String)
    (h : ∃ c ∈ path.data, isPathSeparator c = false) :
    ∀ c ∈ (filepathBase path).data, isPathSeparator c = false := by
  have hne : path ≠ "" := by
    intro he
    rw [he] at h
    simp at h
  obtain ⟨a, as, hstrip, ha⟩ := stripLeadingSeparators_ne_nil path.data.reverse
    (by simpa using h)
  unfold filepathBase
  simp only [beq_iff_eq, hne, if_false, hstrip]
  have htw : List.takeWhile (fun x => !isPathSeparator x) (a :: as) =
      a :: List.takeWhile (fun x => !isPathSeparator x) as := by
    simp [List.takeWhile_cons, ha]
  simp only [htw, List.reverse_cons, List.isEmpty_iff, List.append_eq_nil, List.cons_ne_nil,
    and_false, if_false]
  intro c hc
  have hmem : c ∈ List.takeWhile (fun x => !isPathSeparator x) (a :: as) := by
    rw [htw]
    simpa [or_comm] using hc
  simpa using List.mem_takeWhile_imp hmem

theorem base_message_excludes_path (pre : String) (filePath : String)
    (hpre : ∀ c ∈ pre.data, isPathSeparator c = false)
    (hsep : '/' ∈ filePath.data) (hname : ∃ c ∈ filePath.data, isPathSeparator c = false) :
    stringsContains (pre ++ filepathBase filePath) filePath = false := by
  cases hcontains : stringsContains (pre ++ filepathBase filePath) filePath with
  | false => rfl
  | true =>
    unfold stringsContains at hcontains
    have hmem := containsChars_subset _ _ hcontains '/' hsep
    rw [String.data_append, List.mem_append] at hmem
    have hbad : isPathSeparator '/' = false := by
      cases hmem with
      | inl h1 => exact hpre _ h1
      | inr h2 => exact filepathBase_no_separator filePath hname _ h2
    exact absurd hbad (by decide)

theorem validateFile_present (fs : FileSystem) (filePath : String)
    (h : ∃ info, fs.Stat filePath = .ok info ∧ info.Size ≠ 0) :
    validateFile fs filePath = none := by
  obtain ⟨info, hstat, hsize⟩ := h
  unfold validateFile
  simp [hstat, hsize]

theorem validateFile_errorf_text (fs : FileSystem) (filePath text : String)
    (h : validateFile fs filePath = some (.errorf text)) :
    text = "file does not exist: " ++ filepathBase filePath ∨
      text = "file is empty: " ++ filepathBase filePath := by
  unfold validateFile at h
  cases hstat : fs.Stat filePath with
  | error err =>
    rw [hstat] at h
    cases hne : osIsNotExist err
    · simp [hne] at h
    · simp only [hne, if_true, Option.some.injEq, GoError.errorf.injEq] at h
      exact Or.inl h.symm
  | ok info =>
    rw [hstat] at h
    by_cases hsz : info.Size = 0
    · simp only [hsz, beq_self_eq_true, if_true, Option.some.injEq, GoError.errorf.injEq] at h
      exact Or.inr h.symm
    · simp [hsz] at h

/-! ## Theorems on the file validator -/

/-- C1: `Validate` on the validator built by `NewFileValidator` checks every path without
stopping at a failure. Its result is the failures of `validateFile` over the four
required paths (the README path as given, then the module root joined with `outputs.tf`,
`variables.tf` and `terraform.tf`), each with `required ` in front, followed by the
failures over the normalised additional paths in the order supplied, each with
`additional ` in front; the number of errors is the number of checked paths, counted
with repetition, that fail. -/
theorem Validate_checks_every_path (fs : FileSystem) (readmePath modulePath : String)
    (additionalFiles : List String) :
    (NewFileValidator readmePath modulePath additionalFiles).Validate fs =
      [readmePath, filepathJoin [modulePath, "outputs.tf"],
        filepathJoin [modulePath, "variables.tf"],
        filepathJoin [modulePath, "terraform.tf"]].filterMap
          (fun p => (validateFile fs p).map
            (fun err => GoError.errorf ("required " ++ err.Error))) ++
      (additionalFiles.map
        (fun f => if filepathIsAbs f then f else filepathJoin [modulePath, f])).filterMap
          (fun p => (validateFile fs p).map
            (fun err => GoError.errorf ("additional " ++ err.Error))) ∧
    ((NewFileValidator readmePath modulePath additionalFiles).Validate fs).length =
      (([readmePath, filepathJoin [modulePath, "outputs.tf"],
        filepathJoin [modulePath, "variables.tf"],
        filepathJoin [modulePath, "terraform.tf"]] ++
        additionalFiles.map
          (fun f => if filepathIsAbs f then f else filepathJoin [modulePath, f])).filter
        (fun p => (validateFile fs p).isSome)).length := by
  have hadd := NewFileValidator_additionalFiles readmePath modulePath additionalFiles
  have hreq : (NewFileValidator readmePath modulePath additionalFiles).requiredFiles =
      [readmePath, filepathJoin [modulePath, "outputs.tf"],
        filepathJoin [modulePath, "variables.tf"],
        filepathJoin [modulePath, "terraform.tf"]] := rfl
  rw [Validate_eq, hadd, hreq]
  refine ⟨rfl, ?_⟩
  rw [List.length_append, length_filterMap_classified, length_filterMap_classified,
    List.filter_append, List.length_append]

/-- C2, as stated, fails in its last clause: when the stat of `/mod/README.md/x` fails
with `stat /mod/README.md/x: not a directory`, the error of `validateFile` has the
message `error accessing file: x: stat /mod/README.md/x: not a directory`, which
contains the full path. -/
theorem validateFile_access_error_full_path :
    osIsNotExist (.external "stat /mod/README.md/x: not a directory" false) = false ∧
    validateFile fileAsDirectory "/mod/README.md/x" =
      some (.wrapf "error accessing file: x: stat /mod/README.md/x: not a directory"
        (.external "stat /mod/README.md/x: not a directory" false)) ∧
    stringsContains "error accessing file: x: stat /mod/README.md/x: not a directory"
      "/mod/README.md/x" = true := by
  decide

/-- C2, amended: `validateFile` returns no error exactly when the stat of the path
succeeds with a size other than zero. It returns the error `file does not exist: <base>`
exactly when the stat fails with a not-exist error, an error
`error accessing file: <base>: <underlying>` that wraps the underlying error exactly
when the stat fails with another error, and `file is empty: <base>` exactly when the
stat succeeds with size zero, where `<base>` is `filepath.Base` of the path. In the
not-found and empty errors the file is named by its base filename only: when the path
has a separator and a character other than the separator, the base filename has no
separator and the message does not contain the path. The access error names the file by
its base filename and then carries the text of the underlying error as it is. -/
theorem validateFile_outcomes (fs : FileSystem) (filePath : String) :
    (validateFile fs filePath = none ↔
      ∃ info, fs.Stat filePath = .ok info ∧ info.Size ≠ 0) ∧
    (validateFile fs filePath =
        some (.errorf ("file does not exist: " ++ filepathBase filePath)) ↔
      ∃ err, fs.Stat filePath = .error err ∧ osIsNotExist err = true) ∧
    ((∃ err, validateFile fs filePath =
        some (.wrapf ("error accessing file: " ++ filepathBase filePath ++ ": " ++ err.Error)
          err)) ↔
      ∃ err, fs.Stat filePath = .error err ∧ osIsNotExist err = false) ∧
    (∀ err, fs.Stat filePath = .error err → osIsNotExist err = false →
      validateFile fs filePath =
        some (.wrapf ("error accessing file: " ++ filepathBase filePath ++ ": " ++ err.Error)
          err) ∧
      (validateFile fs filePath).bind GoError.Unwrap = some err) ∧
    (validateFile fs filePath =
        some (.errorf ("file is empty: " ++ filepathBase filePath)) ↔
      ∃ info, fs.Stat filePath = .ok info ∧ info.Size = 0) ∧
    (∀ text, validateFile fs filePath = some (.errorf text) →
      '/' ∈ filePath.data → (∃ c ∈ filePath.data, isPathSeparator c = false) →
      (∀ c ∈ (filepathBase filePath).data, isPathSeparator c = false) ∧
      stringsContains text filePath = false) := by
  have hbase : ∀ text, validateFile fs filePath = some (.errorf text) →
      '/' ∈ filePath.data → (∃ c ∈ filePath.data, isPathSeparator c = false) →
      (∀ c ∈ (filepathBase filePath).data, isPathSeparator c = false) ∧
      stringsContains text filePath = false := by
    intro text htext hsep hname
    refine ⟨filepathBase_no_separator filePath hname, ?_⟩
    have hform := validateFile_errorf_text fs filePath text htext
    cases hform with
    | inl h1 =>
      rw [h1]
      exact base_message_excludes_path _ filePath (by decide) hsep hname
    | inr h2 =>
      rw [h2]
      exact base_message_excludes_path _ filePath (by decide) hsep hname
  refine ⟨?_, ?_, ?_, ?_, ?_, hbase⟩
  all_goals
    unfold validateFile
    cases hstat : fs.Stat filePath with
    | error err =>
      cases hne : osIsNotExist err <;>
        simp [hne, GoError.Unwrap, string_append_left_cancel, String.ext_iff]
    | ok info =>
      by_cases hsz : info.Size = 0 <;>
        simp [hsz, string_append_left_cancel, String.ext_iff]

/-- C2, amended, at a concrete input: the empty `/mod/outputs.tf` is reported as
`file is empty: outputs.tf`, which does not contain the path. -/
theorem validateFile_outcomes_witness :
    validateFile emptyOutputsModule "/mod/outputs.tf" =
      some (.errorf "file is empty: outputs.tf") ∧
    stringsContains "file is empty: outputs.tf" "/mod/outputs.tf" = false :=
  ⟨by decide,
    ((validateFile_outcomes emptyOutputsModule "/mod/outputs.tf").2.2.2.2.2
      "file is empty: outputs.tf" (by decide) (by decide) ⟨'m', by decide, by decide⟩).2⟩

theorem classified_required_empty_iff (fs : FileSystem) (b q : String) :
    classified fs "required " q = some (.errorf ("required file is empty: " ++ b)) ↔
      (isZeroLength fs q = true ∧ filepathBase q = b) := by
  unfold classified validateFile isZeroLength
  cases hstat : fs.Stat q with
  | error err =>
    cases hne : osIsNotExist err <;> simp [hne, GoError.Error, String.ext_iff]
  | ok info =>
    by_cases hsz : info.Size = 0 <;> simp [hsz, GoError.Error, String.ext_iff]

theorem classified_additional_ne (fs : FileSystem) (b q : String) :
    classified fs "additional " q ≠ some (.errorf ("required file is empty: " ++ b)) := by
  unfold classified
  cases validateFile fs q <;> simp [String.ext_iff]

theorem count_required_empty (fs : FileSystem) (b : String) (paths : List String) :
    (paths.filterMap (classified fs "required ")).count
        (.errorf ("required file is empty: " ++ b)) =
      paths.countP (fun q => isZeroLength fs q && filepathBase q == b) := by
  induction paths with
  | nil => simp
  | cons q qs ih =>
    have hiff := classified_required_empty_iff fs b q
    rw [List.filterMap_cons, List.countP_cons]
    cases hc : classified fs "required " q with
    | none =>
      have hno : ¬(isZeroLength fs q = true ∧ filepathBase q = b) := by
        rw [← hiff, hc]; simp
      have : (isZeroLength fs q && filepathBase q == b) = false := by
        simpa using hno
      simp [ih, this]
    | some e =>
      by_cases he : e = .errorf ("required file is empty: " ++ b)
      · have hyes : isZeroLength fs q = true ∧ filepathBase q = b := by
          rw [← hiff, hc, he]
        have : (isZeroLength fs q && filepathBase q == b) = true := by
          simpa using hyes
        simp [ih, this, he]
      · have hno : ¬(isZeroLength fs q = true ∧ filepathBase q = b) := by
          rw [← hiff, hc]; simpa using he
        have : (isZeroLength fs q && filepathBase q == b) = false := by
          simpa using hno
        have hne : (e == GoError.errorf ("required file is empty: " ++ b)) = false := by
          simpa using he
        simp [ih, this, List.count_cons, hne]

theorem count_additional_empty (fs : FileSystem) (b : String) (paths : List String) :
    (paths.filterMap (classified fs "additional ")).count
        (.errorf ("required file is empty: " ++ b)) = 0 := by
  rw [List.count_eq_zero]
  intro hmem
  rw [List.mem_filterMap] at hmem
  obtain ⟨q, _, hq⟩ := hmem
  exact classified_additional_ne fs b q hq

theorem Validate_count_required_empty (fs : FileSystem) (fv : FileValidator) (b : String) :
    (fv.Validate fs).count (.errorf ("required file is empty: " ++ b)) =
      fv.requiredFiles.countP (fun q => isZeroLength fs q && filepathBase q == b) := by
  rw [Validate_eq, List.count_append, count_required_empty, count_additional_empty,
    Nat.add_zero]

/-- C3: when the README and `outputs.tf`, `variables.tf` and `terraform.tf` under the
module root exist and are not empty, and no additional file is supplied, `Validate`
returns the empty (nil) list. -/
theorem Validate_complete_module (fs : FileSystem) (readmePath modulePath : String)
    (hreadme : ∃ info, fs.Stat readmePath = .ok info ∧ info.Size ≠ 0)
    (houtputs : ∃ info, fs.Stat (filepathJoin [modulePath, "outputs.tf"]) = .ok info ∧
      info.Size ≠ 0)
    (hvariables : ∃ info, fs.Stat (filepathJoin [modulePath, "variables.tf"]) = .ok info ∧
      info.Size ≠ 0)
    (hterraform : ∃ info, fs.Stat (filepathJoin [modulePath, "terraform.tf"]) = .ok info ∧
      info.Size ≠ 0) :
    (NewFileValidator readmePath modulePath []).Validate fs = [] := by
  have h1 := validateFile_present fs readmePath hreadme
  have h2 := validateFile_present fs (filepathJoin [modulePath, "outputs.tf"]) houtputs
  have h3 := validateFile_present fs (filepathJoin [modulePath, "variables.tf"]) hvariables
  have h4 := validateFile_present fs (filepathJoin [modulePath, "terraform.tf"]) hterraform
  rw [Validate_eq]
  simp [NewFileValidator, classified, h1, h2, h3, h4]

/-- C3, at a concrete input: the complete module `/mod`. -/
theorem Validate_complete_module_witness :
    (NewFileValidator "/mod/README.md" "/mod" []).Validate completeModule = [] :=
  Validate_complete_module completeModule "/mod/README.md" "/mod"
    ⟨FileInfo.mk 120, rfl, by decide⟩ ⟨FileInfo.mk 120, rfl, by decide⟩
    ⟨FileInfo.mk 120, rfl, by decide⟩ ⟨FileInfo.mk 120, rfl, by decide⟩

/-- C4, as stated, fails: with the README path `/mod/outputs.tf` and a zero-length
`/mod/outputs.tf`, the required file `/mod/outputs.tf` is present and empty, and two
elements of the result, not one, equal `required file is empty: outputs.tf`. -/
theorem Validate_required_empty_twice :
    "/mod/outputs.tf" ∈ (NewFileValidator "/mod/outputs.tf" "/mod" []).requiredFiles ∧
    isZeroLength emptyOutputsModule "/mod/outputs.tf" = true ∧
    filepathBase "/mod/outputs.tf" = "outputs.tf" ∧
    ((NewFileValidator "/mod/outputs.tf" "/mod" []).Validate emptyOutputsModule).count
      (.errorf "required file is empty: outputs.tf") = 2 := by
  decide

/-- C4, amended: if a required file (an entry of the required list of the validator built
by `NewFileValidator`) is present but zero-length, and at most one entry of the required
list is a zero-length file with that base filename, then exactly one element of the
result of `Validate` equals `required file is empty: <base filename of that file>`. -/
theorem Validate_required_empty_once (fs : FileSystem) (readmePath modulePath : String)
    (additionalFiles : List String) (p : String)
    (hp : p ∈ (NewFileValidator readmePath modulePath additionalFiles).requiredFiles)
    (hzero : isZeroLength fs p = true)
    (hothers : (NewFileValidator readmePath modulePath additionalFiles).requiredFiles.countP
      (fun q => isZeroLength fs q && filepathBase q == filepathBase p) ≤ 1) :
    ((NewFileValidator readmePath modulePath additionalFiles).Validate fs).count
      (.errorf ("required file is empty: " ++ filepathBase p)) = 1 := by
  rw [Validate_count_required_empty]
  have hpos : 0 < (NewFileValidator readmePath modulePath additionalFiles).requiredFiles.countP
      (fun q => isZeroLength fs q && filepathBase q == filepathBase p) := by
    rw [List.countP_pos_iff]
    exact ⟨p, hp, by simp [hzero]⟩
  omega

/-- C4, amended, at a concrete input: the module `/mod` with an empty `variables.tf`. -/
theorem Validate_required_empty_once_witness :
    ((NewFileValidator "/mod/README.md" "/mod" ["USAGE.md"]).Validate
      emptyVariablesModule).count
        (.errorf ("required file is empty: " ++ filepathBase "/mod/variables.tf")) = 1 :=
  Validate_required_empty_once emptyVariablesModule "/mod/README.md" "/mod" ["USAGE.md"]
    "/mod/variables.tf" (by decide) (by decide) (by decide)

/-- C5: `NewFileValidator` stores the additional paths in the same number and order, an
absolute entry kept as it is (not cleaned) and a relative entry replaced by the module
root joined with it; `USAGE.md` with the module root `/mod` is stored as
`/mod/USAGE.md`, and the absolute `/etc//conf/../x` is stored unchanged. -/
theorem NewFileValidator_normalises (readmePath modulePath : String)
    (additionalFiles : List String) :
    (NewFileValidator readmePath modulePath additionalFiles).additionalFiles.length =
      additionalFiles.length ∧
    (∀ i : Nat, (NewFileValidator readmePath modulePath additionalFiles).additionalFiles[i]? =
      (additionalFiles[i]?).map
        (fun f => if filepathIsAbs f then f else filepathJoin [modulePath, f])) ∧
    (NewFileValidator readmePath "/mod" ["USAGE.md", "/etc//conf/../x"]).additionalFiles =
      ["/mod/USAGE.md", "/etc//conf/../x"] := by
  refine ⟨?_, ?_, ?_⟩
  · rw [NewFileValidator_additionalFiles, List.length_map]
  · intro i
    rw [NewFileValidator_additionalFiles, List.getElem?_map]
  · rw [NewFileValidator_additionalFiles]
    decide

/-- C6, at the failing input: with the relative module root `mod`, the additional path
`USAGE.md` is stored as `mod/USAGE.md`, which is not absolute. -/
theorem NewFileValidator_relative_root :
    (NewFileValidator "README.md" "mod" ["USAGE.md"]).additionalFiles = ["mod/USAGE.md"] ∧
    filepathIsAbs "mod/USAGE.md" = false := by
  decide

/-! ## Lemmas on the run of the goroutines -/

theorem validateSingleURL_fst (net : Network) (url : String) (log : List String) :
    (validateSingleURL net url log).1 = probeErr net url := by
  unfold probeErr validateSingleURL httpGet
  cases net.Get url with
  | error err => rfl
  | ok resp => by_cases h : resp.StatusCode = 200 <;> simp [h]

theorem validateSingleURL_snd (net : Network) (url : String) (log : List String) :
    (validateSingleURL net url log).2 = log ++ [url] := by
  unfold validateSingleURL httpGet
  cases net.Get url with
  | error err => rfl
  | ok resp => by_cases h : resp.StatusCode = 200 <;> simp [h]

theorem sum_map_eraseIdx {M : Type} [AddCommMonoid M] (f : Goroutine → M)
    (gs : List Goroutine) (i : Nat) (g : Goroutine) (h : gs[i]? = some g) :
    (gs.map f).sum = f g + ((gs.eraseIdx i).map f).sum := by
  induction gs generalizing i with
  | nil => simp at h
  | cons x xs ih =>
    cases i with
    | zero =>
      simp at h
      simp [h]
    | succ j =>
      simp at h
      simp [ih j h]
      exact add_left_comm _ _ _

theorem sum_map_set {M : Type} [AddCommMonoid M] (f : Goroutine → M)
    (gs : List Goroutine) (i : Nat) (g g' : Goroutine) (h : gs[i]? = some g) :
    f g + ((gs.set i g').map f).sum = f g' + (gs.map f).sum := by
  induction gs generalizing i with
  | nil => simp at h
  | cons x xs ih =>
    cases i with
    | zero =>
      simp at h
      simp [h]
      exact add_left_comm _ _ _
    | succ j =>
      simp only [List.getElem?_cons_succ] at h
      simp only [List.set_cons_succ, List.map_cons, List.sum_cons]
      rw [add_left_comm, ih j h, add_left_comm]

theorem length_eraseIdx_of_get (gs : List Goroutine) (i : Nat) (g : Goroutine)
    (h : gs[i]? = some g) : (gs.eraseIdx i).length + 1 = gs.length := by
  have := sum_map_eraseIdx (fun _ => (1 : Nat)) gs i g h
  simp at this
  omega

theorem length_le_weight (gs : List Goroutine) :
    gs.length ≤ (gs.map Goroutine.weight).sum := by
  induction gs with
  | nil => simp
  | cons g gs ih =>
    cases g <;> simp [Goroutine.weight] <;> omega

theorem step_spawned (net : Network) (pick : Nat) (r : Run) (url : String)
    (h : r.goroutines[pick % r.goroutines.length]? = some (.spawned url)) :
    r.step net pick =
      Run.mk (r.goroutines.set (pick % r.goroutines.length) (.returned (probeErr net url)))
        r.wg r.chanCap r.errChan (r.log ++ [url]) := by
  unfold Run.step
  simp only [h, validateSingleURL_fst, validateSingleURL_snd]

theorem step_returned_none (net : Network) (pick : Nat) (r : Run)
    (h : r.goroutines[pick % r.goroutines.length]? = some (.returned none)) :
    r.step net pick =
      Run.mk (r.goroutines.eraseIdx (pick % r.goroutines.length)) (r.wg - 1) r.chanCap
        r.errChan r.log := by
  unfold Run.step
  simp only [h]

theorem step_returned_some (net : Network) (pick : Nat) (r : Run) (err : GoError)
    (h : r.goroutines[pick % r.goroutines.length]? = some (.returned (some err)))
    (hfree : r.errChan.length < r.chanCap) :
    r.step net pick =
      Run.mk (r.goroutines.eraseIdx (pick % r.goroutines.length)) (r.wg - 1) r.chanCap
        (r.errChan ++ [err]) r.log := by
  unfold Run.step
  simp only [h, hfree, if_true]

theorem step_spec (net : Network) (pick : Nat) (r : Run) (hok : r.ok)
    (hlive : r.goroutines ≠ []) :
    (r.step net pick).ok ∧ (r.step net pick).weight + 1 = r.weight ∧
    (r.step net pick).probes = r.probes ∧
    (r.step net pick).failures net = r.failures net := by
  obtain ⟨hwg, hroom⟩ := hok
  have hpos : 0 < r.goroutines.length := List.length_pos.mpr hlive
  have hi : pick % r.goroutines.length < r.goroutines.length := Nat.mod_lt _ hpos
  have hget : r.goroutines[pick % r.goroutines.length]? =
      some (r.goroutines[pick % r.goroutines.length]) := List.getElem?_eq_getElem hi
  generalize r.goroutines[pick % r.goroutines.length] = g at hget
  have hlen := length_eraseIdx_of_get _ _ _ hget
  cases g with
  | spawned url =>
    have hw := sum_map_set Goroutine.weight _ _ _ (.returned (probeErr net url)) hget
    have hp := sum_map_set Goroutine.toProbe _ _ _ (.returned (probeErr net url)) hget
    have hf := sum_map_set (Goroutine.toSend net) _ _ _ (.returned (probeErr net url)) hget
    simp only [Goroutine.weight] at hw
    simp only [Goroutine.toProbe, zero_add] at hp
    simp only [Goroutine.toSend] at hf
    have hf2 := add_left_cancel hf
    rw [step_spawned net pick r url hget]
    unfold Run.ok Run.weight Run.probes Run.failures
    simp only [List.length_set]
    refine ⟨⟨hwg, hroom⟩, by omega, ?_, ?_⟩
    · rw [← hp, ← Multiset.coe_add, ← add_assoc]
      rfl
    · rw [hf2]
  | returned res =>
    have hw := sum_map_eraseIdx Goroutine.weight _ _ _ hget
    have hp := sum_map_eraseIdx Goroutine.toProbe _ _ _ hget
    have hf := sum_map_eraseIdx (Goroutine.toSend net) _ _ _ hget
    simp only [Goroutine.weight] at hw
    simp only [Goroutine.toProbe, zero_add] at hp
    simp only [Goroutine.toSend] at hf
    cases res with
    | none =>
      rw [step_returned_none net pick r hget]
      unfold Run.ok Run.weight Run.probes Run.failures
      simp only [Option.toList, Multiset.coe_nil, zero_add] at hf
      simp only
      refine ⟨⟨by omega, by omega⟩, by omega, by rw [hp], by rw [hf]⟩
    | some err =>
      have hfree : r.errChan.length < r.chanCap := by omega
      rw [step_returned_some net pick r err hget hfree]
      unfold Run.ok Run.weight Run.probes Run.failures
      simp only [Option.toList] at hf
      simp only [List.length_append, List.length_singleton]
      refine ⟨⟨by omega, by omega⟩, by omega, by rw [hp], ?_⟩
      rw [hf, ← Multiset.coe_add, ← add_assoc]

theorem wait_spec (net : Network) (fuel : Nat) :
    ∀ (sched : List Nat) (r : Run), r.ok → r.weight ≤ fuel →
      ∃ r', Run.wait net fuel sched r = some r' ∧ r'.wg = 0 ∧ r'.goroutines = [] ∧
        r'.probes = r.probes ∧ r'.failures net = r.failures net := by
  induction fuel with
  | zero =>
    intro sched r hok hw
    have hlen := length_le_weight r.goroutines
    have hnil : r.goroutines = [] := List.length_eq_zero.mp (by unfold Run.weight at hw; omega)
    have hwg : r.wg = 0 := by rw [hok.1, hnil]; rfl
    exact ⟨r, by simp [Run.wait, hwg], hwg, hnil, rfl, rfl⟩
  | succ n ih =>
    intro sched r hok hw
    by_cases hwg : r.wg = 0
    · have hnil : r.goroutines = [] := List.length_eq_zero.mp (by rw [← hok.1]; exact hwg)
      exact ⟨r, by simp [Run.wait, hwg], hwg, hnil, rfl, rfl⟩
    · have hlive : r.goroutines ≠ [] := by
        intro hnil
        apply hwg
        rw [hok.1, hnil]
        rfl
      obtain ⟨hok', hw', hp, hf⟩ := step_spec net (sched.headD 0) r hok hlive
      obtain ⟨r', hrun, h0, hnil, hp', hf'⟩ :=
        ih sched.tail (r.step net (sched.headD 0)) hok' (by omega)
      refine ⟨r', ?_, h0, hnil, by rw [hp', hp], by rw [hf', hf]⟩
      rw [Run.wait]
      simp only [beq_iff_eq, hwg, if_false]
      exact hrun

theorem spawn_spec (urls : List String) (r : Run) :
    urls.foldl spawnStep r =
      Run.mk
        (r.goroutines ++
          (urls.filter (fun u => !stringsContains u "registry.terraform.io/providers/")).map
            Goroutine.spawned)
        (r.wg +
          (urls.filter (fun u => !stringsContains u "registry.terraform.io/providers/")).length)
        r.chanCap r.errChan r.log := by
  induction urls generalizing r with
  | nil => simp
  | cons u us ih =>
    rw [List.foldl_cons, ih]
    unfold spawnStep
    by_cases h : stringsContains u "registry.terraform.io/providers/" = true
    · simp [h]
    · simp [h, Nat.add_assoc, Nat.add_comm 1]

theorem drain_eq (errChan : List GoError) : drain errChan = errChan := by
  unfold drain
  have h : ∀ (l acc : List GoError),
      l.foldl (fun errors err => errors ++ [err]) acc = acc ++ l := by
    intro l
    induction l with
    | nil => simp
    | cons x xs ih => intro acc; simp [ih]
  simpa using h errChan []


theorem sum_toProbe_spawned (urls : List String) :
    ((urls.map Goroutine.spawned).map Goroutine.toProbe).sum = (urls : Multiset String) := by
  induction urls with
  | nil => rfl
  | cons u us ih =>
    simp only [List.map_cons, List.sum_cons, ih, Goroutine.toProbe]
    rfl

theorem sum_toSend_spawned (net : Network) (urls : List String) :
    ((urls.map Goroutine.spawned).map (Goroutine.toSend net)).sum =
      ((urls.filterMap (probeErr net) : List GoError) : Multiset GoError) := by
  induction urls with
  | nil => rfl
  | cons u us ih =>
    simp only [List.map_cons, List.sum_cons, ih, Goroutine.toSend, List.filterMap_cons]
    cases probeErr net u <;> simp [Option.toList]

theorem sum_weight_spawned (urls : List String) :
    ((urls.map Goroutine.spawned).map Goroutine.weight).sum = 2 * urls.length := by
  induction urls with
  | nil => rfl
  | cons u us ih =>
    simp only [List.map_cons, List.sum_cons, ih, Goroutine.weight, List.length_cons]
    omega

/-- The run of `Validate` ends, for every schedule, with no goroutine left, the counter of
the wait group at zero, the non-exempt matches as the requests issued and their failures
in the channel, both up to order. -/
theorem run_spec (rxStrict : String → List String) (net : Network) (sched : List Nat)
    (uv : URLValidator) :
    ∃ r, uv.run rxStrict net sched = some r ∧ r.wg = 0 ∧ r.goroutines = [] ∧
      r.log.Perm (nonExempt (rxStrict uv.content.data)) ∧
      r.errChan.Perm ((nonExempt (rxStrict uv.content.data)).filterMap (probeErr net)) := by
  unfold URLValidator.run
  simp only [spawn_spec, List.nil_append, Nat.zero_add]
  have hok : (Run.mk ((nonExempt (rxStrict uv.content.data)).map Goroutine.spawned)
      (nonExempt (rxStrict uv.content.data)).length (rxStrict uv.content.data).length
      [] []).ok := by
    unfold Run.ok
    simp only [List.length_map, List.length_nil, Nat.zero_add, true_and]
    exact List.length_filter_le _ _
  have hweight : (Run.mk ((nonExempt (rxStrict uv.content.data)).map Goroutine.spawned)
      (nonExempt (rxStrict uv.content.data)).length (rxStrict uv.content.data).length
      [] []).weight ≤ 2 * ((nonExempt (rxStrict uv.content.data)).map
        Goroutine.spawned).length := by
    unfold Run.weight
    simp only [sum_weight_spawned, List.length_map, le_refl]
  obtain ⟨r, hrun, hwg, hnil, hprobes, hfail⟩ := wait_spec net _ sched _ hok hweight
  refine ⟨r, hrun, hwg, hnil, ?_, ?_⟩
  · unfold Run.probes at hprobes
    simp only [hnil, List.map_nil, List.sum_nil, add_zero, sum_toProbe_spawned,
      Multiset.coe_nil, zero_add] at hprobes
    exact Multiset.coe_eq_coe.mp hprobes
  · unfold Run.failures at hfail
    simp only [hnil, List.map_nil, List.sum_nil, add_zero, sum_toSend_spawned,
      Multiset.coe_nil, zero_add] at hfail
    exact Multiset.coe_eq_coe.mp hfail

theorem mem_nonExempt (urls : List String) (u : String) :
    u ∈ nonExempt urls ↔
      u ∈ urls ∧ stringsContains u "registry.terraform.io/providers/" = false := by
  unfold nonExempt
  simp [List.mem_filter]

theorem probeErr_of_response (net : Network) (u : String) (resp : Response)
    (h : net.Get u = .ok resp) :
    probeErr net u =
      if resp.StatusCode ≠ 200 then
        some (.errorf ("URL returned non-OK status: " ++ u ++ ": Status: " ++
          toString resp.StatusCode))
      else none := by
  unfold probeErr validateSingleURL httpGet
  simp only [h]
  by_cases hc : resp.StatusCode = 200 <;> simp [hc]

theorem probeErr_isSome_of_response (net : Network) (u : String)
    (h : ∃ resp, net.Get u = .ok resp) :
    (probeErr net u).isSome = returnsNon200 net u := by
  obtain ⟨resp, hresp⟩ := h
  rw [probeErr_of_response net u resp hresp]
  unfold returnsNon200
  simp only [hresp]
  by_cases hc : resp.StatusCode = 200 <;> simp [hc]

theorem length_filterMap_eq_filter {α β : Type} (f : α → Option β) (l : List α) :
    (l.filterMap f).length = (l.filter (fun a => (f a).isSome)).length := by
  induction l with
  | nil => rfl
  | cons a as ih =>
    cases h : f a <;> simp [List.filterMap_cons, List.filter_cons, h, ih]

/-! ## Theorems on the URL validator -/

/-- C7: `Validate` never probes an extracted URL that contains
`registry.terraform.io/providers/`: every request it issues is for an extracted URL
without the marker, an extracted URL with the marker is not among the requests, and
every error of the result is the failure of the probe of a URL without the marker. When
the matches are `https://example.com/x` and
`https://registry.terraform.io/providers/foo/bar`, only the first is requested. -/
theorem Validate_skips_exempt (rxStrict : String → List String) (net : Network)
    (sched : List Nat) (uv : URLValidator) :
    ∃ errs reqs, uv.Validate rxStrict net sched = some errs ∧
      uv.requests rxStrict net sched = some reqs ∧
      (∀ u ∈ reqs, u ∈ rxStrict uv.content.data ∧
        stringsContains u "registry.terraform.io/providers/" = false) ∧
      (∀ u, stringsContains u "registry.terraform.io/providers/" = true → u ∉ reqs) ∧
      (∀ e ∈ errs, ∃ u ∈ rxStrict uv.content.data,
        stringsContains u "registry.terraform.io/providers/" = false ∧
        probeErr net u = some e) ∧
      (rxStrict uv.content.data =
          ["https://example.com/x", "https://registry.terraform.io/providers/foo/bar"] →
        reqs = ["https://example.com/x"]) := by
  obtain ⟨r, hrun, _, _, hlog, herr⟩ := run_spec rxStrict net sched uv
  refine ⟨r.errChan, r.log, ?_, ?_, ?_, ?_, ?_, ?_⟩
  · simp [URLValidator.Validate, hrun, drain_eq]
  · simp [URLValidator.requests, hrun]
  · intro u hu
    exact (mem_nonExempt _ u).mp (hlog.mem_iff.mp hu)
  · intro u hu hmem
    have := ((mem_nonExempt _ u).mp (hlog.mem_iff.mp hmem)).2
    rw [hu] at this
    exact Bool.noConfusion this
  · intro e he
    have hmem := herr.mem_iff.mp he
    rw [List.mem_filterMap] at hmem
    obtain ⟨u, hu, hue⟩ := hmem
    obtain ⟨h1, h2⟩ := (mem_nonExempt _ u).mp hu
    exact ⟨u, h1, h2, hue⟩
  · intro hurls
    rw [hurls] at hlog
    have hne : nonExempt
        ["https://example.com/x", "https://registry.terraform.io/providers/foo/bar"] =
        ["https://example.com/x"] := by decide
    rw [hne] at hlog
    exact List.perm_singleton.mp hlog

/-- C7, at a concrete input: the text with one ordinary link and one registry link. -/
theorem Validate_skips_exempt_witness :
    twoLinks.requests wordsWithScheme sampleNetwork [1, 0] = some ["https://example.com/x"] ∧
    twoLinks.Validate wordsWithScheme sampleNetwork [1, 0] =
      some [.errorf "URL returned non-OK status: https://example.com/x: Status: 404"] := by
  obtain ⟨errs, reqs, herrs, hreqs, _, _, _, hex⟩ :=
    Validate_skips_exempt wordsWithScheme sampleNetwork [1, 0] twoLinks
  refine ⟨?_, by decide⟩
  rw [hreqs, hex (by decide)]

/-- C8: when the non-exempt URLs extracted from the text are pairwise distinct and each
gets a response, `Validate` returns exactly as many errors as there are URLs among them
with a status other than 200; every error is
`URL returned non-OK status: <url>: Status: <code>` for such a URL and its status code,
every such URL has its error in the result, and the results of any two schedules are the
same up to order. -/
theorem Validate_bad_status_count (rxStrict : String → List String) (net : Network)
    (sched : List Nat) (uv : URLValidator)
    (hdistinct : (nonExempt (rxStrict uv.content.data)).Nodup)
    (hanswer : ∀ u ∈ nonExempt (rxStrict uv.content.data), ∃ resp, net.Get u = .ok resp) :
    ∃ errs, uv.Validate rxStrict net sched = some errs ∧
      errs.length = ((nonExempt (rxStrict uv.content.data)).toFinset.filter
        (fun u => returnsNon200 net u = true)).card ∧
      (∀ e ∈ errs, ∃ u resp, u ∈ nonExempt (rxStrict uv.content.data) ∧
        net.Get u = .ok resp ∧ resp.StatusCode ≠ 200 ∧
        e = .errorf ("URL returned non-OK status: " ++ u ++ ": Status: " ++
          toString resp.StatusCode)) ∧
      (∀ u resp, u ∈ nonExempt (rxStrict uv.content.data) → net.Get u = .ok resp →
        resp.StatusCode ≠ 200 →
        GoError.errorf ("URL returned non-OK status: " ++ u ++ ": Status: " ++
          toString resp.StatusCode) ∈ errs) ∧
      (∀ sched', ∃ errs', uv.Validate rxStrict net sched' = some errs' ∧
        errs'.Perm errs) := by
  obtain ⟨r, hrun, _, _, _, herr⟩ := run_spec rxStrict net sched uv
  refine ⟨r.errChan, ?_, ?_, ?_, ?_, ?_⟩
  · simp [URLValidator.Validate, hrun, drain_eq]
  · rw [herr.length_eq, length_filterMap_eq_filter, ← List.toFinset_filter,
      List.toFinset_card_of_nodup (hdistinct.filter _)]
    congr 1
    apply List.filter_congr
    intro u hu
    exact probeErr_isSome_of_response net u (hanswer u hu)
  · intro e he
    have hmem := herr.mem_iff.mp he
    rw [List.mem_filterMap] at hmem
    obtain ⟨u, hu, hue⟩ := hmem
    obtain ⟨resp, hresp⟩ := hanswer u hu
    rw [probeErr_of_response net u resp hresp] at hue
    by_cases hc : resp.StatusCode = 200
    · simp [hc] at hue
    · simp only [ne_eq, hc, not_false_eq_true, if_true, Option.some.injEq] at hue
      exact ⟨u, resp, hu, hresp, hc, hue.symm⟩
  · intro u resp hu hresp hc
    apply herr.mem_iff.mpr
    rw [List.mem_filterMap]
    refine ⟨u, hu, ?_⟩
    rw [probeErr_of_response net u resp hresp]
    simp [hc]
  · intro sched'
    obtain ⟨r', hrun', _, _, _, herr'⟩ := run_spec rxStrict net sched' uv
    refine ⟨r'.errChan, ?_, herr'.trans herr.symm⟩
    simp [URLValidator.Validate, hrun', drain_eq]

/-- C8, at a concrete input: three distinct links and a registry link, two of the three
broken. -/
theorem Validate_bad_status_count_witness :
    ∃ errs, fourLinks.Validate wordsWithScheme sampleNetwork [2, 0, 1] = some errs ∧
      errs.length = 2 :=
  (Validate_bad_status_count wordsWithScheme sampleNetwork [2, 0, 1] fourLinks
    (by decide) (fun u _ => by
      unfold sampleNetwork
      by_cases h1 : u = "https://example.com/x"
      · exact ⟨_, if_pos h1⟩
      · by_cases h2 : u = "https://example.org/y"
        · exact ⟨Response.mk 500, by simp [h1, h2]⟩
        · exact ⟨Response.mk 200, by simp [h1, h2]⟩)).imp
    (fun _ h => ⟨h.1, h.2.1.trans (by decide)⟩)

/-- C9, as stated, fails: in a text where `https://example.com/x` occurs twice, this URL,
which has no exemption marker, is the target of two requests, not one. -/
theorem Validate_probes_repeated_twice :
    "https://example.com/x" ∈ wordsWithScheme repeatedLink.content.data ∧
    stringsContains "https://example.com/x" "registry.terraform.io/providers/" = false ∧
    repeatedLink.requests wordsWithScheme sampleNetwork [] =
      some ["https://example.com/x", "https://example.com/x"] ∧
    ["https://example.com/x", "https://example.com/x"].count "https://example.com/x" = 2 := by
  decide

/-- C9, amended: `Validate` probes every non-exempt match exactly once. For every
schedule the run ends with no goroutine left and the wait group at zero; a URL without
the exemption marker is the target of as many requests as it has occurrences among the
matches, a URL with the marker of none; and the result holds the failures of exactly
the requests issued, so it is returned after all probes have reported. -/
theorem Validate_probes_each_match_once (rxStrict : String → List String) (net : Network)
    (sched : List Nat) (uv : URLValidator) :
    ∃ r, uv.run rxStrict net sched = some r ∧ r.goroutines = [] ∧ r.wg = 0 ∧
      uv.Validate rxStrict net sched = some r.errChan ∧
      uv.requests rxStrict net sched = some r.log ∧
      (∀ u, stringsContains u "registry.terraform.io/providers/" = false →
        r.log.count u = (rxStrict uv.content.data).count u) ∧
      (∀ u, stringsContains u "registry.terraform.io/providers/" = true →
        r.log.count u = 0) ∧
      r.errChan.Perm (r.log.filterMap (probeErr net)) := by
  obtain ⟨r, hrun, hwg, hnil, hlog, herr⟩ := run_spec rxStrict net sched uv
  refine ⟨r, hrun, hnil, hwg, ?_, ?_, ?_, ?_, ?_⟩
  · simp [URLValidator.Validate, hrun, drain_eq]
  · simp [URLValidator.requests, hrun]
  · intro u hu
    rw [hlog.count_eq]
    unfold nonExempt
    rw [List.count_filter]
    simp [hu]
  · intro u hu
    rw [hlog.count_eq, List.count_eq_zero, mem_nonExempt]
    intro h
    rw [hu] at h
    exact Bool.noConfusion h.2
  · exact herr.trans (hlog.symm.filterMap _)

/-- C10: `validateSingleURL` issues one request and returns no error exactly when a
response arrives with status 200; it returns
`error accessing URL: <url>: <underlying error>`, wrapping the underlying error, exactly
when the request fails, and `URL returned non-OK status: <url>: Status: <code>` exactly
when a response arrives with a status code other than 200. -/
theorem validateSingleURL_outcomes (net : Network) (url : String) (log : List String) :
    (validateSingleURL net url log).2 = log ++ [url] ∧
    ((validateSingleURL net url log).1 = none ↔
      ∃ resp, net.Get url = .ok resp ∧ resp.StatusCode = 200) ∧
    ((∃ err, (validateSingleURL net url log).1 =
        some (.wrapf ("error accessing URL: " ++ url ++ ": " ++ err.Error) err)) ↔
      ∃ err, net.Get url = .error err) ∧
    (∀ err, net.Get url = .error err →
      (validateSingleURL net url log).1 =
        some (.wrapf ("error accessing URL: " ++ url ++ ": " ++ err.Error) err) ∧
      (validateSingleURL net url log).1.bind GoError.Unwrap = some err) ∧
    ((∃ code, (validateSingleURL net url log).1 =
        some (.errorf ("URL returned non-OK status: " ++ url ++ ": Status: " ++
          toString (code : Int)))) ↔
      ∃ resp, net.Get url = .ok resp ∧ resp.StatusCode ≠ 200) ∧
    (∀ resp, net.Get url = .ok resp → resp.StatusCode ≠ 200 →
      (validateSingleURL net url log).1 =
        some (.errorf ("URL returned non-OK status: " ++ url ++ ": Status: " ++
          toString resp.StatusCode))) := by
  unfold validateSingleURL httpGet
  cases hget : net.Get url with
  | error err => simp [GoError.Unwrap]
  | ok resp =>
    by_cases hc : resp.StatusCode = 200
    · simp [hc]
    · simp only [bne_iff_ne, ne_eq, hc, not_false_eq_true, if_true, reduceCtorEq,
        false_iff, Option.some.injEq, exists_false, iff_false, not_exists, and_false,
        Except.ok.injEq, exists_eq_left', true_and, IsEmpty.forall_iff, implies_true,
        and_true, not_true_eq_false, iff_true, forall_eq']
      exact ⟨resp.StatusCode, rfl⟩

end Markparsr
